import Mathlib

/-!
# Verification of the POV-Ray raw tokenizer (`source/parser/rawtokenizer.cpp`)

A shallow embedding of the tokenizer stage of the POV-Ray scene-description
parser.  Word texts and string-literal texts are modelled as lists of bytes
(`List Nat`); the known-word registry (`std::map<UTF8String, KnownWordInfo>`)
is modelled as an association list; fallible operations return `Option` or
`Except`.  The token-id constants live in `parser/reservedwords.h`, which is
not part of this tree, so they are modelled from the spec as concrete
distinct naturals respecting the documented ordering (banding thresholds
below the symbol tokens, `IDENTIFIER_TOKEN` and the `NOT_A_TOKEN` sentinel
below `TOKEN_COUNT`).
-/

namespace RawTok

/-- Modelled from the spec: token-id constants from `parser/reservedwords.h`
(not in this tree).  The spec requires a monotone banding threshold order
`FLOAT_FUNCT_TOKEN < VECTOR_FUNCT_TOKEN < COLOUR_KEY_TOKEN`, distinct
enumerator values throughout, and `TOKEN_COUNT` as the upper bound of the
statically known id range.  The "float-function" banding threshold. -/
def FLOAT_FUNCT_TOKEN : Nat := 120

/-- Modelled from the spec: the "vector-function" banding threshold. -/
def VECTOR_FUNCT_TOKEN : Nat := 150

/-- Modelled from the spec: the "colour-key" banding threshold. -/
def COLOUR_KEY_TOKEN : Nat := 170

/-- Modelled from the spec: single-character symbol token ids (distinct
enumerators above the banding thresholds). -/
def EXCLAMATION_TOKEN : Nat := 200
def HASH_TOKEN : Nat := 201
def DOLLAR_TOKEN : Nat := 202
def PERCENT_TOKEN : Nat := 203
def AMPERSAND_TOKEN : Nat := 204
def SINGLE_QUOTE_TOKEN : Nat := 205
def LEFT_PAREN_TOKEN : Nat := 206
def RIGHT_PAREN_TOKEN : Nat := 207
def STAR_TOKEN : Nat := 208
def PLUS_TOKEN : Nat := 209
def COMMA_TOKEN : Nat := 210
def DASH_TOKEN : Nat := 211
def PERIOD_TOKEN : Nat := 212
def SLASH_TOKEN : Nat := 213
def COLON_TOKEN : Nat := 214
def SEMI_COLON_TOKEN : Nat := 215
def LEFT_ANGLE_TOKEN : Nat := 216
def EQUALS_TOKEN : Nat := 217
def RIGHT_ANGLE_TOKEN : Nat := 218
def QUESTION_TOKEN : Nat := 219
def AT_TOKEN : Nat := 220
def LEFT_SQUARE_TOKEN : Nat := 221
def BACK_SLASH_TOKEN : Nat := 222
def RIGHT_SQUARE_TOKEN : Nat := 223
def HAT_TOKEN : Nat := 224
def BACK_QUOTE_TOKEN : Nat := 225
def LEFT_CURLY_TOKEN : Nat := 226
def BAR_TOKEN : Nat := 227
def RIGHT_CURLY_TOKEN : Nat := 228
def TILDE_TOKEN : Nat := 229

/-- Modelled from the spec: the three two-character relational operator ids. -/
def REL_NE_TOKEN : Nat := 230
def REL_LE_TOKEN : Nat := 231
def REL_GE_TOKEN : Nat := 232

/-- Modelled from the spec: literal-token and identifier-token ids. -/
def FLOAT_TOKEN : Nat := 301
def STRING_LITERAL_TOKEN : Nat := 302
def IDENTIFIER_TOKEN : Nat := 310

/-- Modelled from the spec: the "not yet a token" sentinel, distinguishable
from any real id. -/
def NOT_A_TOKEN : Nat := 311

/-- Modelled from the spec: the upper bound of the statically known id range;
dynamically allocated identifier ids lie strictly above it. -/
def TOKEN_COUNT : Nat := 312

--------------------------------------------------------------------------------
-- Expression-class banding (`RawTokenizer::GetExpressionId`)
--------------------------------------------------------------------------------

/-- Embedding of `RawTokenizer::GetExpressionId`: the static banding of the
token-id space into expression classes. -/
def GetExpressionId (tokenId : Nat) : Nat :=
  if tokenId ≤ FLOAT_FUNCT_TOKEN then FLOAT_FUNCT_TOKEN
  else if tokenId ≤ VECTOR_FUNCT_TOKEN then VECTOR_FUNCT_TOKEN
  else if tokenId ≤ COLOUR_KEY_TOKEN then COLOUR_KEY_TOKEN
  else tokenId

--------------------------------------------------------------------------------
-- `RawToken::GetTokenId`
--------------------------------------------------------------------------------

/-- Embedding of `RawToken::GetTokenId`: collapse all dynamically allocated
ids (those above `TOKEN_COUNT`) to the generic `IDENTIFIER_TOKEN`. -/
def GetTokenId (id : Nat) : Nat :=
  if id ≤ TOKEN_COUNT then id else IDENTIFIER_TOKEN

--------------------------------------------------------------------------------
-- Known-word registry
--------------------------------------------------------------------------------

/-- Embedding of `RawTokenizer::KnownWordInfo` (an `(id, expressionId)` pair;
the default constructor sets `id = NOT_A_TOKEN`). -/
structure KnownWordInfo where
  id : Nat
  expressionId : Nat
  deriving DecidableEq, Repr

/-- The registry `std::map<UTF8String, KnownWordInfo>` as an association
list keyed by exact byte sequences. -/
def lookupWord : List (List Nat × KnownWordInfo) → List Nat → Option KnownWordInfo
  | [], _ => none
  | (k, v) :: rest, key => if k = key then some v else lookupWord rest key

/-- Insert-or-replace for the registry (the net effect of `operator[]`
followed by member assignment). -/
def insertWord : List (List Nat × KnownWordInfo) → List Nat → KnownWordInfo →
    List (List Nat × KnownWordInfo)
  | [], key, v => [(key, v)]
  | (k, w) :: rest, key, v =>
    if k = key then (k, v) :: rest else (k, w) :: insertWord rest key v

/-- Embedding of the tokenizer state: the registry plus the
`mNextIdentifierId` counter. -/
structure RawTokenizer where
  mNextIdentifierId : Nat
  mKnownWords : List (List Nat × KnownWordInfo)
  deriving DecidableEq, Repr

/-- `isalpha` (C locale) on a byte. -/
def isalphaB (c : Nat) : Bool :=
  (65 ≤ c && c ≤ 90) || (97 ≤ c && c ≤ 122)

/-- One seeding step of the `RawTokenizer` constructor: skip entries whose
text does not start with an alphabetic character or contains a space,
otherwise insert the reserved id with its banded expression id. -/
def seedStep (m : List (List Nat × KnownWordInfo)) (p : List Nat × Nat) :
    List (List Nat × KnownWordInfo) :=
  match p.1 with
  | [] => m
  | c :: _ =>
    if isalphaB c && !(p.1.contains 32) then
      insertWord m p.1 ⟨p.2, GetExpressionId p.2⟩
    else m

/-- Embedding of the `RawTokenizer` constructor: counter starts at
`TOKEN_COUNT + 1`, registry seeded in order from the reserved-word list
(supplied as a parameter; the static table lives outside this tree). -/
def mkRawTokenizer (reserved : List (List Nat × Nat)) : RawTokenizer :=
  ⟨TOKEN_COUNT + 1, reserved.foldl seedStep []⟩

/-- Result of `RawTokenizer::ProcessWordLexeme`: the successor state, the
token ids written into the token, and whether this occurrence registered a
new identifier (i.e. the looked-up entry still had the `NOT_A_TOKEN`
sentinel). -/
structure WordResult where
  st : RawTokenizer
  id : Nat
  expressionId : Nat
  isNew : Bool
  deriving DecidableEq, Repr

/-- Embedding of `RawTokenizer::ProcessWordLexeme`.  `operator[]` yields the
existing entry or a default one with `id = NOT_A_TOKEN`; in the latter case
the entry receives `++mNextIdentifierId` (pre-increment: the counter is
bumped first, then used) and the generic identifier expression class. -/
def ProcessWordLexeme (st : RawTokenizer) (text : List Nat) : WordResult :=
  let entry := (lookupWord st.mKnownWords text).getD ⟨NOT_A_TOKEN, 0⟩
  if entry.id = NOT_A_TOKEN then
    let newId := st.mNextIdentifierId + 1
    { st := ⟨newId, insertWord st.mKnownWords text ⟨newId, IDENTIFIER_TOKEN⟩⟩,
      id := newId, expressionId := IDENTIFIER_TOKEN, isNew := true }
  else
    { st := st, id := entry.id, expressionId := entry.expressionId, isNew := false }

/-- One word-tokenization event, as observed by the parser. -/
structure WordEvent where
  text : List Nat
  id : Nat
  expressionId : Nat
  isNew : Bool
  deriving DecidableEq, Repr

/-- Run a sequence of word lexemes through `ProcessWordLexeme`, collecting
the resulting events. -/
def runWords (st : RawTokenizer) : List (List Nat) → RawTokenizer × List WordEvent
  | [] => (st, [])
  | w :: ws =>
    ((runWords (ProcessWordLexeme st w).st ws).1,
     ⟨w, (ProcessWordLexeme st w).id, (ProcessWordLexeme st w).expressionId,
      (ProcessWordLexeme st w).isNew⟩ :: (runWords (ProcessWordLexeme st w).st ws).2)

--------------------------------------------------------------------------------
-- Hex digits and Unicode scalar values
--------------------------------------------------------------------------------

/-- Embedding of the static helper `HexDigitToInt` (returns `-1` for a
non-hex-digit byte). -/
def HexDigitToInt (c : Nat) : Int :=
  if 48 ≤ c ∧ c ≤ 57 then (c : Int) - 48
  else if 65 ≤ c ∧ c ≤ 70 then (c : Int) - 65 + 10
  else if 97 ≤ c ∧ c ≤ 102 then (c : Int) - 97 + 10
  else -1

/-- Embedding of the static helper `IsUCS4ScalarValue`. -/
def IsUCS4ScalarValue (c : Nat) : Bool :=
  c ≤ 0x10FFFF && (c < 0xD800 || 0xDFFF < c)

/-- The digit-accumulation loop of `RawTokenizer::ProcessUCSEscapeDigits`:
returns the accumulated value (or `none` upon the first non-hex digit)
together with the number of characters consumed. -/
def ucsDigitLoop (c : Nat) : List Nat → Option Nat × Nat
  | [] => (some c, 0)
  | d :: rest =>
    let h := HexDigitToInt d
    if h < 0 then (none, 0)
    else
      let r := ucsDigitLoop (c * 16 + h.toNat) rest
      (r.1, r.2 + 1)

/-- A byte accepted by `HexDigitToInt`. -/
def isHexDigitB (c : Nat) : Bool := decide (0 ≤ HexDigitToInt c)

/-- The mathematical value of a big-endian hex digit string. -/
def hexValue (l : List Nat) : Nat :=
  l.foldl (fun a d => a * 16 + (HexDigitToInt d).toNat) 0

/-- Outcome of `RawTokenizer::ProcessUCSEscapeDigits`, distinguishing the two
failure exits because they leave `escapeSequenceEnd` differently (unchanged
for the too-few-characters exit, `i + digits` otherwise). -/
inductive UCSDigitsResult where
  | ok (c : Nat) (consumed : Nat)
  | failLen
  | failDigits (consumed : Nat)
  deriving DecidableEq, Repr

/-- Embedding of `RawTokenizer::ProcessUCSEscapeDigits`.  `avail` is the span
from the cursor to `escapeSequenceEnd` (the caller sets the latter to the
payload end before the call). -/
def ProcessUCSEscapeDigits (avail : List Nat) (digits : Nat) : UCSDigitsResult :=
  if avail.length < digits then .failLen
  else
    match ucsDigitLoop 0 (avail.take digits) with
    | (none, n) => .failDigits n
    | (some c, n) => if IsUCS4ScalarValue c then .ok c n else .failDigits n

--------------------------------------------------------------------------------
-- UTF-8 sequence decoding (external `pov_base::UCS::DecodeUTF8Sequence`)
--------------------------------------------------------------------------------

/-- A UTF-8 continuation byte. -/
def isUTF8Cont (b : Nat) : Bool := 0x80 ≤ b && b ≤ 0xBF

/-- Modelled from the spec: `pov_base::UCS::DecodeUTF8Sequence` lives in the
base module, outside this tree.  Per the spec it decodes one multi-byte
UTF-8 sequence and fails on malformed continuation bytes, truncated
sequences, and overlong encodings.  On success it returns the decoded
scalar together with the number of bytes consumed *beyond* the first; on
failure the caller substitutes U+FFFD and the cursor moves past the
offending byte. -/
def DecodeUTF8Sequence : List Nat → Option (Nat × Nat)
  | [] => none
  | b0 :: rest =>
    if 0xC2 ≤ b0 && b0 ≤ 0xDF then
      match rest with
      | b1 :: _ =>
        if isUTF8Cont b1 then some ((b0 - 0xC0) * 64 + (b1 - 0x80), 1) else none
      | [] => none
    else if 0xE0 ≤ b0 && b0 ≤ 0xEF then
      match rest with
      | b1 :: b2 :: _ =>
        if isUTF8Cont b1 && isUTF8Cont b2 then
          let c := (b0 - 0xE0) * 4096 + (b1 - 0x80) * 64 + (b2 - 0x80)
          if c < 0x800 then none else some (c, 2)
        else none
      | _ => none
    else if 0xF0 ≤ b0 && b0 ≤ 0xF4 then
      match rest with
      | b1 :: b2 :: b3 :: _ =>
        if isUTF8Cont b1 && isUTF8Cont b2 && isUTF8Cont b3 then
          let c := (b0 - 0xF0) * 262144 + (b1 - 0x80) * 4096 + (b2 - 0x80) * 64
                     + (b3 - 0x80)
          if c < 0x10000 || 0x10FFFF < c then none else some (c, 3)
        else none
      | _ => none
    else none

/-- The replacement character `pov_base::UCS::kReplacementCharacter`. -/
def kReplacementCharacter : Nat := 0xFFFD

--------------------------------------------------------------------------------
-- String-literal decoding (`RawTokenizer::ProcessStringLiteralLexeme`)
--------------------------------------------------------------------------------

/-- `pValue->data.push_back(UCS2(c))`: narrow a decoded scalar to a 16-bit
code unit and prepend it to the decoded output (errors pass through). -/
def pushChar (c : Nat) : Except (Nat × Nat) (List Nat) → Except (Nat × Nat) (List Nat)
  | .error e => .error e
  | .ok l => .ok (c % 65536 :: l)

/-- The decode loop of `RawTokenizer::ProcessStringLiteralLexeme`, over the
unquoted payload.  `k` is the absolute index (within the payload) of the
current cursor; errors carry the `(escapeSequenceBegin, escapeSequenceEnd)`
index pair of the thrown `InvalidEscapeSequenceException`. -/
def decodeStringChars : List Nat → Nat → Except (Nat × Nat) (List Nat)
  | [], _ => .ok []
  | b :: rest, k =>
    if b = 92 then
      match rest with
      | [] => .error (k, k + 1)
      | e :: rest2 =>
        if e = 97 then pushChar 7 (decodeStringChars rest2 (k + 2))
        else if e = 98 then pushChar 8 (decodeStringChars rest2 (k + 2))
        else if e = 116 then pushChar 9 (decodeStringChars rest2 (k + 2))
        else if e = 110 then pushChar 10 (decodeStringChars rest2 (k + 2))
        else if e = 118 then pushChar 11 (decodeStringChars rest2 (k + 2))
        else if e = 102 then pushChar 12 (decodeStringChars rest2 (k + 2))
        else if e = 114 then pushChar 13 (decodeStringChars rest2 (k + 2))
        else if e = 39 || e = 34 || e = 92 then pushChar e (decodeStringChars rest2 (k + 2))
        else if e = 85 then
          match ProcessUCSEscapeDigits rest2 6 with
          | .ok c _ => pushChar c (decodeStringChars (rest2.drop 6) (k + 8))
          | .failLen => .error (k, k + 2 + rest2.length)
          | .failDigits _ => .error (k, k + 8)
        else if e = 117 then
          match ProcessUCSEscapeDigits rest2 4 with
          | .ok c _ => pushChar c (decodeStringChars (rest2.drop 4) (k + 6))
          | .failLen => .error (k, k + 2 + rest2.length)
          | .failDigits _ => .error (k, k + 6)
        else .error (k, k + 2)
    else if b ≤ 0x7F then pushChar b (decodeStringChars rest (k + 1))
    else
      match DecodeUTF8Sequence (b :: rest) with
      | some (c, extra) => pushChar c (decodeStringChars (rest.drop extra) (k + 1 + extra))
      | none => pushChar kReplacementCharacter (decodeStringChars rest (k + 1))
termination_by l _k => l.length
decreasing_by all_goals (simp [List.length_drop]; try omega)

/-- The payload of `InvalidEscapeSequenceException`: the source position and
the offending sub-span (byte text plus its start index inside the unquoted
payload). -/
structure EscapeError where
  pos : Nat
  spanBegin : Nat
  span : List Nat
  deriving DecidableEq, Repr

/-- Embedding of `RawTokenizer::ProcessStringLiteralLexeme`: strip the two
quote delimiters, decode the interior, and either produce the decoded
16-bit code-unit sequence or abort with the exception payload. -/
def ProcessStringLiteralLexeme (pos : Nat) (text : List Nat) :
    Except EscapeError (List Nat) :=
  let payload := (text.drop 1).dropLast
  match decodeStringChars payload 0 with
  | .error (s, e) => .error ⟨pos, s, (payload.drop s).take (e - s)⟩
  | .ok data => .ok data

--------------------------------------------------------------------------------
-- Symbol classification (`RawTokenizer::ProcessOtherLexeme`)
--------------------------------------------------------------------------------

/-- The single-character `switch` of `RawTokenizer::ProcessOtherLexeme`
(`none` corresponds to the assert-and-return-false default). -/
def singleCharTokenId (c : Nat) : Option Nat :=
  if c = 33 then some EXCLAMATION_TOKEN
  else if c = 35 then some HASH_TOKEN
  else if c = 36 then some DOLLAR_TOKEN
  else if c = 37 then some PERCENT_TOKEN
  else if c = 38 then some AMPERSAND_TOKEN
  else if c = 39 then some SINGLE_QUOTE_TOKEN
  else if c = 40 then some LEFT_PAREN_TOKEN
  else if c = 41 then some RIGHT_PAREN_TOKEN
  else if c = 42 then some STAR_TOKEN
  else if c = 43 then some PLUS_TOKEN
  else if c = 44 then some COMMA_TOKEN
  else if c = 45 then some DASH_TOKEN
  else if c = 46 then some PERIOD_TOKEN
  else if c = 47 then some SLASH_TOKEN
  else if c = 58 then some COLON_TOKEN
  else if c = 59 then some SEMI_COLON_TOKEN
  else if c = 60 then some LEFT_ANGLE_TOKEN
  else if c = 61 then some EQUALS_TOKEN
  else if c = 62 then some RIGHT_ANGLE_TOKEN
  else if c = 63 then some QUESTION_TOKEN
  else if c = 64 then some AT_TOKEN
  else if c = 91 then some LEFT_SQUARE_TOKEN
  else if c = 92 then some BACK_SLASH_TOKEN
  else if c = 93 then some RIGHT_SQUARE_TOKEN
  else if c = 94 then some HAT_TOKEN
  else if c = 96 then some BACK_QUOTE_TOKEN
  else if c = 123 then some LEFT_CURLY_TOKEN
  else if c = 124 then some BAR_TOKEN
  else if c = 125 then some RIGHT_CURLY_TOKEN
  else if c = 126 then some TILDE_TOKEN
  else none

/-- Embedding of `RawTokenizer::ProcessOtherLexeme`: single characters go
through the `switch`, exactly three two-character operator texts are
recognized, and anything else is the contract-violation exit
(`POV_PARSER_ASSERT(false); return false;`, modelled as `none`).  On
success it returns `(tokenId, GetExpressionId tokenId)`. -/
def ProcessOtherLexeme (text : List Nat) : Option (Nat × Nat) :=
  match text with
  | [c] =>
    match singleCharTokenId c with
    | some tid => some (tid, GetExpressionId tid)
    | none => none
  | _ =>
    if text = [33, 61] then some (REL_NE_TOKEN, GetExpressionId REL_NE_TOKEN)
    else if text = [60, 61] then some (REL_LE_TOKEN, GetExpressionId REL_LE_TOKEN)
    else if text = [62, 61] then some (REL_GE_TOKEN, GetExpressionId REL_GE_TOKEN)
    else none

--------------------------------------------------------------------------------
-- `RawTokenizer::GetNextToken` dispatch
--------------------------------------------------------------------------------

/-- The lexeme categories produced by the scanner (`Lexeme::Category`). -/
inductive Category where
  | kWord
  | kFloatLiteral
  | kStringLiteral
  | kOther
  deriving DecidableEq, Repr

/-- A raw lexeme as handed over by the scanner. -/
structure Lexeme where
  category : Category
  text : List Nat
  position : Nat
  deriving DecidableEq, Repr

/-- What one `GetNextToken` call does with an available lexeme.  `success`
is a `return true` with the token fields written by the branch that
completed; `assertsOk` records whether every `POV_PARSER_ASSERT` evaluated
on the way held (they are no-ops in release builds).  `staleSuccess` is the
`default:` exit: `POV_PARSER_ASSERT(false); return true;` with the token
fields left as they were.  `exn` is a propagating
`InvalidEscapeSequenceException`. -/
inductive NextOutcome where
  | success (id : Nat) (expressionId : Nat) (strData : Option (List Nat)) (assertsOk : Bool)
  | staleSuccess
  | exn (e : EscapeError)
  deriving DecidableEq, Repr

/-- The entry assertions of `ProcessStringLiteralLexeme` (category, length
of at least two, leading and trailing quote). -/
def stringStageAssertsOk (lx : Lexeme) (catOk : Bool) : Bool :=
  catOk && decide (2 ≤ lx.text.length) && decide (lx.text.head? = some 34)
    && decide (lx.text.getLast? = some 34)

/-- The `case Lexeme::kStringLiteral` arm (also reached by fallthrough from
a failed float parse, in which case `catOk` is false). -/
def stringStage (lx : Lexeme) (catOk : Bool) : NextOutcome :=
  match ProcessStringLiteralLexeme lx.position lx.text with
  | .error e => .exn e
  | .ok data =>
    .success STRING_LITERAL_TOKEN STRING_LITERAL_TOKEN (some data)
      (stringStageAssertsOk lx catOk)

/-- The `case Lexeme::kOther` arm (also reached by fallthrough); on a
contract violation the missing `break`s drop control into the `default:`
arm, which returns `true` with the token fields untouched. -/
def otherStage (lx : Lexeme) : NextOutcome :=
  match ProcessOtherLexeme lx.text with
  | some r => .success r.1 r.2 none true
  | none => .staleSuccess

/-- The `case Lexeme::kFloatLiteral` arm.  `sscanfOk` abstracts the
platform `sscanf(text, "%lf", ...)` call (its numeric result is a `double`
and is not modelled); when the parse consumes nothing the arm returns
`false`, and — the `switch` having no `break` — control falls through into
the string-literal arm with its category assertion now violated. -/
def floatStage (sscanfOk : List Nat → Bool) (lx : Lexeme) : NextOutcome :=
  if sscanfOk lx.text then .success FLOAT_TOKEN FLOAT_FUNCT_TOKEN none true
  else stringStage lx false

/-- Embedding of the classification `switch` of
`RawTokenizer::GetNextToken`, applied to one lexeme obtained from the
scanner (the `return false` end-of-input path needs no modelling beyond
that).  Returns the successor tokenizer state and the outcome. -/
def ClassifyLexeme (st : RawTokenizer) (sscanfOk : List Nat → Bool) (lx : Lexeme) :
    RawTokenizer × NextOutcome :=
  match lx.category with
  | .kWord =>
    let r := ProcessWordLexeme st lx.text
    (r.st, .success r.id r.expressionId none (decide (0 < lx.text.length)))
  | .kFloatLiteral => (st, floatStage sscanfOk lx)
  | .kStringLiteral => (st, stringStage lx true)
  | .kOther => (st, otherStage lx)

--------------------------------------------------------------------------------
-- Registry lemmas
--------------------------------------------------------------------------------

/-- Well-formedness of a tokenizer state: no stored entry carries the
`NOT_A_TOKEN` sentinel as its id, and the identifier counter is at least
its construction value. -/
def RegWF (st : RawTokenizer) : Prop :=
  (∀ k v, lookupWord st.mKnownWords k = some v → v.id ≠ NOT_A_TOKEN) ∧
  TOKEN_COUNT + 1 ≤ st.mNextIdentifierId

theorem lookupWord_insertWord_self (m : List (List Nat × KnownWordInfo)) (key : List Nat)
    (v : KnownWordInfo) :
    lookupWord (insertWord m key v) key = some v := by
  induction m with
  | nil => simp [insertWord, lookupWord]
  | cons p rest ih =>
    obtain ⟨k, w⟩ := p
    by_cases hk : k = key
    · simp [insertWord, hk, lookupWord]
    · simp [insertWord, hk, lookupWord, ih]

theorem lookupWord_insertWord_ne (m : List (List Nat × KnownWordInfo)) (key k2 : List Nat)
    (v : KnownWordInfo) (h : k2 ≠ key) :
    lookupWord (insertWord m key v) k2 = lookupWord m k2 := by
  have h2 : key ≠ k2 := fun hh => h hh.symm
  induction m with
  | nil => simp [insertWord, lookupWord, h2]
  | cons p rest ih =>
    obtain ⟨k, w⟩ := p
    by_cases hk : k = key
    · subst hk
      simp [insertWord, lookupWord, h2]
    · by_cases hq : k = k2 <;> simp [insertWord, lookupWord, hk, hq, h, h2, ih]

theorem processWord_new (st : RawTokenizer) (w : List Nat)
    (h : lookupWord st.mKnownWords w = none) :
    ProcessWordLexeme st w =
      { st := ⟨st.mNextIdentifierId + 1,
               insertWord st.mKnownWords w
                 ⟨st.mNextIdentifierId + 1, IDENTIFIER_TOKEN⟩⟩,
        id := st.mNextIdentifierId + 1, expressionId := IDENTIFIER_TOKEN,
        isNew := true } := by
  simp [ProcessWordLexeme, h]

theorem processWord_old (st : RawTokenizer) (w : List Nat) (v : KnownWordInfo)
    (h : lookupWord st.mKnownWords w = some v) (hv : v.id ≠ NOT_A_TOKEN) :
    ProcessWordLexeme st w =
      { st := st, id := v.id, expressionId := v.expressionId, isNew := false } := by
  simp [ProcessWordLexeme, h, hv]

theorem not_a_token_lt : NOT_A_TOKEN < TOKEN_COUNT + 2 := by decide

theorem regWF_processWord {st : RawTokenizer} (w : List Nat) (hwf : RegWF st) :
    RegWF (ProcessWordLexeme st w).st := by
  obtain ⟨hids, hcnt⟩ := hwf
  cases h : lookupWord st.mKnownWords w with
  | none =>
    rw [processWord_new st w h]
    refine ⟨?_, by simpa using Nat.le_succ_of_le hcnt⟩
    intro k v hkv
    by_cases hk : k = w
    · subst hk
      rw [lookupWord_insertWord_self] at hkv
      have hv : v = ⟨st.mNextIdentifierId + 1, IDENTIFIER_TOKEN⟩ :=
        (Option.some_injective _ hkv).symm
      have := not_a_token_lt
      rw [hv]
      show st.mNextIdentifierId + 1 ≠ NOT_A_TOKEN
      omega
    · rw [lookupWord_insertWord_ne _ _ _ _ hk] at hkv
      exact hids k v hkv
  | some v =>
    rw [processWord_old st w v h (hids w v h)]
    exact ⟨hids, hcnt⟩

theorem regWF_runWords {st : RawTokenizer} (ws : List (List Nat)) (hwf : RegWF st) :
    RegWF (runWords st ws).1 := by
  induction ws generalizing st with
  | nil => simpa [runWords] using hwf
  | cons w ws ih => simpa [runWords] using ih (regWF_processWord w hwf)

theorem lookup_processWord_preserved {st : RawTokenizer} {k : List Nat}
    {v : KnownWordInfo} (w : List Nat)
    (hwf : RegWF st) (h : lookupWord st.mKnownWords k = some v) :
    lookupWord (ProcessWordLexeme st w).st.mKnownWords k = some v := by
  cases hw : lookupWord st.mKnownWords w with
  | none =>
    rw [processWord_new st w hw]
    have hk : k ≠ w := by
      intro he
      rw [he, hw] at h
      exact Option.noConfusion h
    rw [lookupWord_insertWord_ne _ _ _ _ hk]
    exact h
  | some u =>
    rw [processWord_old st w u hw (hwf.1 w u hw)]
    exact h

theorem lookup_runWords_preserved {st : RawTokenizer} {k : List Nat}
    {v : KnownWordInfo} (ws : List (List Nat))
    (hwf : RegWF st) (h : lookupWord st.mKnownWords k = some v) :
    lookupWord (runWords st ws).1.mKnownWords k = some v := by
  induction ws generalizing st with
  | nil => simpa [runWords] using h
  | cons w ws ih =>
    simpa [runWords] using
      ih (regWF_processWord w hwf) (lookup_processWord_preserved w hwf h)

theorem lookup_runWords_none {st : RawTokenizer} {k : List Nat}
    (ws : List (List Nat)) (hwf : RegWF st)
    (h : lookupWord st.mKnownWords k = none) (hk : k ∉ ws) :
    lookupWord (runWords st ws).1.mKnownWords k = none := by
  induction ws generalizing st with
  | nil => simpa [runWords] using h
  | cons w ws ih =>
    have hne : k ≠ w := fun he => hk (by simp [he])
    have hk2 : k ∉ ws := fun hm => hk (List.mem_cons_of_mem _ hm)
    have hstep : lookupWord (ProcessWordLexeme st w).st.mKnownWords k = none := by
      cases hw : lookupWord st.mKnownWords w with
      | none =>
        rw [processWord_new st w hw, lookupWord_insertWord_ne _ _ _ _ hne]
        exact h
      | some u =>
        rw [processWord_old st w u hw (hwf.1 w u hw)]
        exact h
    simpa [runWords] using ih (regWF_processWord w hwf) hstep hk2

theorem seedStep_entries_wf {m : List (List Nat × KnownWordInfo)}
    {p : List Nat × Nat} (hp : p.2 ≠ NOT_A_TOKEN)
    (hm : ∀ k v, lookupWord m k = some v → v.id ≠ NOT_A_TOKEN) :
    ∀ k v, lookupWord (seedStep m p) k = some v → v.id ≠ NOT_A_TOKEN := by
  obtain ⟨nm, num⟩ := p
  intro k v hkv
  cases nm with
  | nil =>
    simp only [seedStep] at hkv
    exact hm k v hkv
  | cons c cs =>
    simp only [seedStep] at hkv
    by_cases hcond : (isalphaB c && !((c :: cs).contains 32)) = true
    · rw [if_pos hcond] at hkv
      by_cases hk : k = c :: cs
      · subst hk
        rw [lookupWord_insertWord_self] at hkv
        have hv : v = ⟨num, GetExpressionId num⟩ := (Option.some_injective _ hkv).symm
        rw [hv]
        exact hp
      · rw [lookupWord_insertWord_ne _ _ _ _ hk] at hkv
        exact hm k v hkv
    · rw [if_neg hcond] at hkv
      exact hm k v hkv

theorem seed_entries_wf :
    ∀ (reserved : List (List Nat × Nat)) (m : List (List Nat × KnownWordInfo)),
    (∀ p ∈ reserved, p.2 ≠ NOT_A_TOKEN) →
    (∀ k v, lookupWord m k = some v → v.id ≠ NOT_A_TOKEN) →
    ∀ k v, lookupWord (reserved.foldl seedStep m) k = some v → v.id ≠ NOT_A_TOKEN := by
  intro reserved
  induction reserved with
  | nil =>
    intro m _ hm
    simpa using hm
  | cons p rest ih =>
    intro m hres hm
    simp only [List.foldl_cons]
    exact ih (seedStep m p)
      (fun q hq => hres q (List.mem_cons_of_mem _ hq))
      (seedStep_entries_wf (hres p (List.mem_cons_self _ _)) hm)

theorem regWF_mkRawTokenizer (reserved : List (List Nat × Nat))
    (hres : ∀ p ∈ reserved, p.2 ≠ NOT_A_TOKEN) :
    RegWF (mkRawTokenizer reserved) := by
  refine ⟨?_, le_refl _⟩
  exact seed_entries_wf reserved [] hres (by simp [lookupWord])

theorem processWord_isNew_iff {st : RawTokenizer} (w : List Nat) (hwf : RegWF st) :
    (ProcessWordLexeme st w).isNew = true ↔ lookupWord st.mKnownWords w = none := by
  cases h : lookupWord st.mKnownWords w with
  | none =>
    rw [processWord_new st w h]
    simp
  | some v =>
    rw [processWord_old st w v h (hwf.1 w v h)]
    simp

theorem counter_processWord (st : RawTokenizer) (w : List Nat) (hwf : RegWF st) :
    st.mNextIdentifierId ≤ (ProcessWordLexeme st w).st.mNextIdentifierId := by
  cases h : lookupWord st.mKnownWords w with
  | none =>
    rw [processWord_new st w h]
    exact Nat.le_succ _
  | some v =>
    rw [processWord_old st w v h (hwf.1 w v h)]

theorem run_new_id_gt (ws : List (List Nat)) :
    ∀ st : RawTokenizer, RegWF st →
    ∀ ev ∈ (runWords st ws).2, ev.isNew = true → st.mNextIdentifierId < ev.id := by
  induction ws with
  | nil =>
    intro st _ ev hev
    simp [runWords] at hev
  | cons w ws ih =>
    intro st hwf ev hev hnew
    simp only [runWords, List.mem_cons] at hev
    cases hev with
    | inl hev =>
      cases h : lookupWord st.mKnownWords w with
      | none =>
        rw [processWord_new st w h] at hev
        rw [hev] at hnew ⊢
        exact Nat.lt_succ_self _
      | some v =>
        rw [processWord_old st w v h (hwf.1 w v h)] at hev
        rw [hev] at hnew
        exact absurd hnew (by simp)
    | inr hev =>
      have := ih (ProcessWordLexeme st w).st (regWF_processWord w hwf) ev hev hnew
      exact lt_of_le_of_lt (counter_processWord st w hwf) this

theorem runWords_snd_cons (st : RawTokenizer) (w : List Nat) (ws : List (List Nat)) :
    (runWords st (w :: ws)).2
      = ⟨w, (ProcessWordLexeme st w).id, (ProcessWordLexeme st w).expressionId,
         (ProcessWordLexeme st w).isNew⟩ :: (runWords (ProcessWordLexeme st w).st ws).2 := rfl

theorem runWords_fst_cons (st : RawTokenizer) (w : List Nat) (ws : List (List Nat)) :
    (runWords st (w :: ws)).1 = (runWords (ProcessWordLexeme st w).st ws).1 := rfl

theorem run_new_ids (ws : List (List Nat)) :
    ∀ st : RawTokenizer, RegWF st →
    ((runWords st ws).2.filter (fun ev => ev.isNew)).map (fun ev => ev.id)
      = List.range' (st.mNextIdentifierId + 1)
          (((runWords st ws).2.filter (fun ev => ev.isNew)).length) := by
  induction ws with
  | nil =>
    intro st _
    simp [runWords]
  | cons w ws ih =>
    intro st hwf
    have ih2 := ih (ProcessWordLexeme st w).st (regWF_processWord w hwf)
    rw [runWords_snd_cons]
    cases h : lookupWord st.mKnownWords w with
    | none =>
      have hid : (ProcessWordLexeme st w).id = st.mNextIdentifierId + 1 := by
        rw [processWord_new st w h]
      have hnew2 : (ProcessWordLexeme st w).isNew = true := by
        rw [processWord_new st w h]
      have hcnt : (ProcessWordLexeme st w).st.mNextIdentifierId = st.mNextIdentifierId + 1 := by
        rw [processWord_new st w h]
      rw [hcnt] at ih2
      simp only [List.filter_cons, hnew2, decide_True, if_pos, List.map_cons,
        List.length_cons, hid]
      rw [List.range'_succ, ih2]
    | some v =>
      have hnew2 : (ProcessWordLexeme st w).isNew = false := by
        rw [processWord_old st w v h (hwf.1 w v h)]
      have hst : (ProcessWordLexeme st w).st = st := by
        rw [processWord_old st w v h (hwf.1 w v h)]
      rw [hst] at ih2
      rw [hst]
      simp only [List.filter_cons, hnew2]
      simpa using ih2

theorem lookup_processWord_none_iff {st : RawTokenizer} (w : List Nat) (hwf : RegWF st)
    (t : List Nat) :
    lookupWord (ProcessWordLexeme st w).st.mKnownWords t = none ↔
      (lookupWord st.mKnownWords t = none ∧ t ≠ w) := by
  cases h : lookupWord st.mKnownWords w with
  | none =>
    rw [processWord_new st w h]
    by_cases ht : t = w
    · subst ht
      rw [lookupWord_insertWord_self]
      simp [h]
    · rw [lookupWord_insertWord_ne _ _ _ _ ht]
      simp [ht]
  | some v =>
    rw [processWord_old st w v h (hwf.1 w v h)]
    constructor
    · intro hn
      refine ⟨hn, fun he => ?_⟩
      rw [he, h] at hn
      exact Option.noConfusion hn
    · exact fun hn => hn.1

theorem run_isNew_char (ws : List (List Nat)) :
    ∀ (st : RawTokenizer) (k : Nat) (ev : WordEvent), RegWF st →
    (runWords st ws).2.get? k = some ev →
    (ev.isNew = true ↔ (lookupWord st.mKnownWords ev.text = none ∧
       ev.text ∉ ((runWords st ws).2.take k).map (fun e => e.text))) := by
  induction ws with
  | nil =>
    intro st k ev _ hev
    simp [runWords] at hev
  | cons w ws ih =>
    intro st k ev hwf hev
    rw [runWords_snd_cons] at hev ⊢
    cases k with
    | zero =>
      rw [List.get?_cons_zero] at hev
      have hevE : ev = ⟨w, (ProcessWordLexeme st w).id,
          (ProcessWordLexeme st w).expressionId, (ProcessWordLexeme st w).isNew⟩ :=
        (Option.some.inj hev).symm
      subst hevE
      simpa using processWord_isNew_iff w hwf
    | succ k =>
      rw [List.get?_cons_succ] at hev
      have ih2 := ih (ProcessWordLexeme st w).st k ev (regWF_processWord w hwf) hev
      rw [ih2, lookup_processWord_none_iff w hwf ev.text, List.take_succ_cons]
      simp only [List.map_cons, List.mem_cons]
      constructor
      · rintro ⟨⟨h1, h2⟩, h3⟩
        exact ⟨h1, fun hc => hc.elim h2 h3⟩
      · rintro ⟨h1, h2⟩
        exact ⟨⟨h1, fun he => h2 (Or.inl he)⟩, fun hm => h2 (Or.inr hm)⟩

--------------------------------------------------------------------------------
-- Escape-digit lemmas
--------------------------------------------------------------------------------

theorem ucsDigitLoop_all_hex :
    ∀ (l : List Nat) (c : Nat), l.all isHexDigitB = true →
    ucsDigitLoop c l = (some (l.foldl (fun a d => a * 16 + (HexDigitToInt d).toNat) c), l.length) := by
  intro l
  induction l with
  | nil => intro c _; simp [ucsDigitLoop]
  | cons d rest ih =>
    intro c hall
    simp only [List.all_cons, Bool.and_eq_true] at hall
    have hd : ¬(HexDigitToInt d < 0) := by
      have := hall.1
      simp only [isHexDigitB, decide_eq_true_eq] at this
      omega
    simp only [ucsDigitLoop, if_neg hd, ih _ hall.2, List.foldl_cons, List.length_cons]

theorem ucsDigitLoop_fail :
    ∀ (l : List Nat) (c : Nat), l.all isHexDigitB = false →
    (ucsDigitLoop c l).1 = none := by
  intro l
  induction l with
  | nil => intro c h; simp at h
  | cons d rest ih =>
    intro c hall
    simp only [List.all_cons, Bool.and_eq_false_iff] at hall
    by_cases hd : HexDigitToInt d < 0
    · simp [ucsDigitLoop, if_pos hd]
    · have hrest : rest.all isHexDigitB = false := by
        cases hall with
        | inl h =>
          exfalso
          simp only [isHexDigitB, decide_eq_false_iff_not] at h
          omega
        | inr h => exact h
      simp [ucsDigitLoop, if_neg hd, ih _ hrest]

theorem PUED_len {avail : List Nat} {digits : Nat} (h : avail.length < digits) :
    ProcessUCSEscapeDigits avail digits = .failLen := by
  unfold ProcessUCSEscapeDigits
  rw [if_pos h]

theorem PUED_step {avail : List Nat} {digits : Nat} (h : ¬(avail.length < digits)) :
    ProcessUCSEscapeDigits avail digits
      = match ucsDigitLoop 0 (avail.take digits) with
        | (none, n) => .failDigits n
        | (some c, n) => if IsUCS4ScalarValue c then .ok c n else .failDigits n := by
  unfold ProcessUCSEscapeDigits
  rw [if_neg h]

theorem PUED_ok_le {avail : List Nat} {d c n : Nat}
    (h : ProcessUCSEscapeDigits avail d = .ok c n) : d ≤ avail.length := by
  by_contra hlt
  push_neg at hlt
  rw [PUED_len hlt] at h
  exact UCSDigitsResult.noConfusion h

theorem PUED_failDigits_le {avail : List Nat} {d n : Nat}
    (h : ProcessUCSEscapeDigits avail d = .failDigits n) : d ≤ avail.length := by
  by_contra hlt
  push_neg at hlt
  rw [PUED_len hlt] at h
  exact UCSDigitsResult.noConfusion h

--------------------------------------------------------------------------------
-- String-decode lemmas
--------------------------------------------------------------------------------

theorem pushChar_error_iff (c : Nat) (r : Except (Nat × Nat) (List Nat)) (x : Nat × Nat) :
    pushChar c r = .error x ↔ r = .error x := by
  cases r <;> simp [pushChar]

theorem decodeUTF8_some_le {b : Nat} {rest : List Nat} {c extra : Nat}
    (h : DecodeUTF8Sequence (b :: rest) = some (c, extra)) :
    1 ≤ extra ∧ extra ≤ rest.length := by
  unfold DecodeUTF8Sequence at h
  dsimp only at h
  split_ifs at h with h1 h2 h3
  · cases rest with
    | nil => exact absurd h (by simp)
    | cons b1 t =>
      dsimp only at h
      by_cases hc : isUTF8Cont b1 = true
      · rw [if_pos hc] at h
        simp only [Option.some.injEq, Prod.mk.injEq] at h
        simp only [List.length_cons, ← h.2]
        omega
      · rw [if_neg hc] at h
        exact absurd h (by simp)
  · cases rest with
    | nil => exact absurd h (by simp)
    | cons b1 t =>
      cases t with
      | nil => exact absurd h (by simp)
      | cons b2 t2 =>
        dsimp only at h
        by_cases hc : (isUTF8Cont b1 && isUTF8Cont b2) = true
        · rw [if_pos hc] at h
          split_ifs at h with hover
          simp only [Option.some.injEq, Prod.mk.injEq] at h
          simp only [List.length_cons, ← h.2]
          omega
        · rw [if_neg hc] at h
          exact absurd h (by simp)
  · cases rest with
    | nil => exact absurd h (by simp)
    | cons b1 t =>
      cases t with
      | nil => exact absurd h (by simp)
      | cons b2 t2 =>
        cases t2 with
        | nil => exact absurd h (by simp)
        | cons b3 t3 =>
          dsimp only at h
          by_cases hc : (isUTF8Cont b1 && isUTF8Cont b2 && isUTF8Cont b3) = true
          · rw [if_pos hc] at h
            split_ifs at h with hover
            simp only [Option.some.injEq, Prod.mk.injEq] at h
            simp only [List.length_cons, ← h.2]
            omega
          · rw [if_neg hc] at h
            exact absurd h (by simp)

theorem get?_cons_sub {a : Nat} {l : List Nat} {s k : Nat} (h : k + 1 ≤ s)
    (hg : l.get? (s - (k + 1)) = some 92) : (a :: l).get? (s - k) = some 92 := by
  have hs : s - k = (s - (k + 1)) + 1 := by omega
  rw [hs, List.get?_cons_succ]
  exact hg

theorem get?_cons_cons_sub {a b : Nat} {l : List Nat} {s k : Nat} (h : k + 2 ≤ s)
    (hg : l.get? (s - (k + 2)) = some 92) : (a :: b :: l).get? (s - k) = some 92 := by
  have hs : s - k = (s - (k + 2)) + 1 + 1 := by omega
  rw [hs, List.get?_cons_succ, List.get?_cons_succ]
  exact hg

/-- Every error produced by the string-decode loop points at a backslash:
the reported span starts at index `s` (holding byte 0x5C) at or after the
cursor, is non-empty, and ends within the payload. -/
theorem decode_error_spec (l : List Nat) (k : Nat) :
    ∀ s e, decodeStringChars l k = .error (s, e) →
    k ≤ s ∧ s < e ∧ e ≤ k + l.length ∧ l.get? (s - k) = some 92 := by
  induction l, k using decodeStringChars.induct with
  | case1 x =>
    intro s e h
    simp [decodeStringChars] at h
  | case2 k =>
    intro s e h
    simp [decodeStringChars] at h
    obtain ⟨hs, he⟩ := h
    refine ⟨by omega, by omega, by simp only [List.length_cons]; omega, ?_⟩
    have h0 : s - k = 0 := by omega
    rw [h0]
    simp
  | case3 k tail ih =>
    intro s e h
    simp [decodeStringChars, pushChar_error_iff] at h
    obtain ⟨h1, h2, h3, h4⟩ := ih s e h
    refine ⟨by omega, h2, by simp only [List.length_cons]; omega,
      get?_cons_cons_sub (by omega) h4⟩
  | case4 k tail _ ih =>
    intro s e h
    simp [decodeStringChars, pushChar_error_iff] at h
    obtain ⟨h1, h2, h3, h4⟩ := ih s e h
    refine ⟨by omega, h2, by simp only [List.length_cons]; omega,
      get?_cons_cons_sub (by omega) h4⟩
  | case5 k tail _ _ ih =>
    intro s e h
    simp [decodeStringChars, pushChar_error_iff] at h
    obtain ⟨h1, h2, h3, h4⟩ := ih s e h
    refine ⟨by omega, h2, by simp only [List.length_cons]; omega,
      get?_cons_cons_sub (by omega) h4⟩
  | case6 k tail _ _ _ ih =>
    intro s e h
    simp [decodeStringChars, pushChar_error_iff] at h
    obtain ⟨h1, h2, h3, h4⟩ := ih s e h
    refine ⟨by omega, h2, by simp only [List.length_cons]; omega,
      get?_cons_cons_sub (by omega) h4⟩
  | case7 k tail _ _ _ _ ih =>
    intro s e h
    simp [decodeStringChars, pushChar_error_iff] at h
    obtain ⟨h1, h2, h3, h4⟩ := ih s e h
    refine ⟨by omega, h2, by simp only [List.length_cons]; omega,
      get?_cons_cons_sub (by omega) h4⟩
  | case8 k tail _ _ _ _ _ ih =>
    intro s e h
    simp [decodeStringChars, pushChar_error_iff] at h
    obtain ⟨h1, h2, h3, h4⟩ := ih s e h
    refine ⟨by omega, h2, by simp only [List.length_cons]; omega,
      get?_cons_cons_sub (by omega) h4⟩
  | case9 k tail _ _ _ _ _ _ ih =>
    intro s e h
    simp [decodeStringChars, pushChar_error_iff] at h
    obtain ⟨h1, h2, h3, h4⟩ := ih s e h
    refine ⟨by omega, h2, by simp only [List.length_cons]; omega,
      get?_cons_cons_sub (by omega) h4⟩
  | case10 k c tail hc1 hc2 hc3 hc4 hc5 hc6 hc7 hcq ih =>
    intro s e h
    simp [decodeStringChars, hc1, hc2, hc3, hc4, hc5, hc6, hc7, hcq,
      pushChar_error_iff] at h
    obtain ⟨h1, h2, h3, h4⟩ := ih s e h
    refine ⟨by omega, h2, by simp only [List.length_cons]; omega,
      get?_cons_cons_sub (by omega) h4⟩
  | case11 k tail a a2 hok _ _ _ _ _ _ _ _ ih =>
    intro s e h
    simp [decodeStringChars, hok, pushChar_error_iff] at h
    obtain ⟨h1, h2, h3, h4⟩ := ih s e h
    have hlen : 6 ≤ tail.length := PUED_ok_le hok
    rw [List.length_drop] at h3
    refine ⟨by omega, h2, by simp only [List.length_cons]; omega, ?_⟩
    rw [List.get?_drop] at h4
    have harith : 6 + (s - (k + 8)) = s - (k + 2) := by omega
    rw [harith] at h4
    exact get?_cons_cons_sub (by omega) h4
  | case12 k tail hfl _ _ _ _ _ _ _ _ =>
    intro s e h
    simp [decodeStringChars, hfl] at h
    obtain ⟨hs, he⟩ := h
    refine ⟨by omega, by omega, by simp only [List.length_cons]; omega, ?_⟩
    have h0 : s - k = 0 := by omega
    rw [h0]
    simp
  | case13 k tail a hfd _ _ _ _ _ _ _ _ =>
    intro s e h
    simp [decodeStringChars, hfd] at h
    obtain ⟨hs, he⟩ := h
    have hlen : 6 ≤ tail.length := PUED_failDigits_le hfd
    refine ⟨by omega, by omega, by simp only [List.length_cons]; omega, ?_⟩
    have h0 : s - k = 0 := by omega
    rw [h0]
    simp
  | case14 k tail a a2 hok _ _ _ _ _ _ _ _ _ ih =>
    intro s e h
    simp [decodeStringChars, hok, pushChar_error_iff] at h
    obtain ⟨h1, h2, h3, h4⟩ := ih s e h
    have hlen : 4 ≤ tail.length := PUED_ok_le hok
    rw [List.length_drop] at h3
    refine ⟨by omega, h2, by simp only [List.length_cons]; omega, ?_⟩
    rw [List.get?_drop] at h4
    have harith : 4 + (s - (k + 6)) = s - (k + 2) := by omega
    rw [harith] at h4
    exact get?_cons_cons_sub (by omega) h4
  | case15 k tail hfl _ _ _ _ _ _ _ _ _ =>
    intro s e h
    simp [decodeStringChars, hfl] at h
    obtain ⟨hs, he⟩ := h
    refine ⟨by omega, by omega, by simp only [List.length_cons]; omega, ?_⟩
    have h0 : s - k = 0 := by omega
    rw [h0]
    simp
  | case16 k tail a hfd _ _ _ _ _ _ _ _ _ =>
    intro s e h
    simp [decodeStringChars, hfd] at h
    obtain ⟨hs, he⟩ := h
    have hlen : 4 ≤ tail.length := PUED_failDigits_le hfd
    refine ⟨by omega, by omega, by simp only [List.length_cons]; omega, ?_⟩
    have h0 : s - k = 0 := by omega
    rw [h0]
    simp
  | case17 k c tail hc1 hc2 hc3 hc4 hc5 hc6 hc7 hcq hcU hcu =>
    intro s e h
    simp [decodeStringChars, hc1, hc2, hc3, hc4, hc5, hc6, hc7, hcq, hcU, hcu] at h
    obtain ⟨hs, he⟩ := h
    refine ⟨by omega, by omega, by simp only [List.length_cons]; omega, ?_⟩
    have h0 : s - k = 0 := by omega
    rw [h0]
    simp
  | case18 b rest k hb92 hble ih =>
    intro s e h
    rw [decodeStringChars.eq_def] at h
    simp [hb92, hble, pushChar_error_iff] at h
    obtain ⟨h1, h2, h3, h4⟩ := ih s e h
    refine ⟨by omega, h2, by simp only [List.length_cons]; omega,
      get?_cons_sub (by omega) h4⟩
  | case19 b rest k hb92 hble c extra hdec ih =>
    intro s e h
    rw [decodeStringChars.eq_def] at h
    simp [hb92, hble, hdec, pushChar_error_iff] at h
    obtain ⟨h1, h2, h3, h4⟩ := ih s e h
    have hextra : extra ≤ rest.length := (decodeUTF8_some_le hdec).2
    rw [List.length_drop] at h3
    refine ⟨by omega, h2, by simp only [List.length_cons]; omega, ?_⟩
    rw [List.get?_drop] at h4
    have harith : extra + (s - (k + 1 + extra)) = s - (k + 1) := by omega
    rw [harith] at h4
    exact get?_cons_sub (by omega) h4
  | case20 b rest k hb92 hble hdec ih =>
    intro s e h
    rw [decodeStringChars.eq_def] at h
    simp [hb92, hble, hdec, pushChar_error_iff] at h
    obtain ⟨h1, h2, h3, h4⟩ := ih s e h
    refine ⟨by omega, h2, by simp only [List.length_cons]; omega,
      get?_cons_sub (by omega) h4⟩

theorem seedStep_entries_banded {m : List (List Nat × KnownWordInfo)}
    {p : List Nat × Nat}
    (hm : ∀ k v, lookupWord m k = some v → v.expressionId = GetExpressionId v.id) :
    ∀ k v, lookupWord (seedStep m p) k = some v →
      v.expressionId = GetExpressionId v.id := by
  obtain ⟨nm, num⟩ := p
  intro k v hkv
  cases nm with
  | nil =>
    simp only [seedStep] at hkv
    exact hm k v hkv
  | cons c cs =>
    simp only [seedStep] at hkv
    by_cases hcond : (isalphaB c && !((c :: cs).contains 32)) = true
    · rw [if_pos hcond] at hkv
      by_cases hk : k = c :: cs
      · subst hk
        rw [lookupWord_insertWord_self] at hkv
        have hv : v = ⟨num, GetExpressionId num⟩ := (Option.some_injective _ hkv).symm
        rw [hv]
      · rw [lookupWord_insertWord_ne _ _ _ _ hk] at hkv
        exact hm k v hkv
    · rw [if_neg hcond] at hkv
      exact hm k v hkv

theorem seed_entries_banded :
    ∀ (reserved : List (List Nat × Nat)) (m : List (List Nat × KnownWordInfo)),
    (∀ k v, lookupWord m k = some v → v.expressionId = GetExpressionId v.id) →
    ∀ k v, lookupWord (reserved.foldl seedStep m) k = some v →
      v.expressionId = GetExpressionId v.id := by
  intro reserved
  induction reserved with
  | nil =>
    intro m hm
    simpa using hm
  | cons p rest ih =>
    intro m hm
    simp only [List.foldl_cons]
    exact ih (seedStep m p) (seedStep_entries_banded hm)

--------------------------------------------------------------------------------
-- Claims
--------------------------------------------------------------------------------

/-- C1 counterexample: the claim says the very first new identifier receives
id `TOKEN_COUNT + 1`, but the pre-increment `++mNextIdentifierId` (with the
counter constructed at `TOKEN_COUNT + 1`) hands the first new word the id
`TOKEN_COUNT + 2`. -/
theorem claim_C1_counterexample :
    (ProcessWordLexeme (mkRawTokenizer [([98, 111, 120], 7)]) [97]).id = TOKEN_COUNT + 2 ∧
    TOKEN_COUNT + 2 ≠ TOKEN_COUNT + 1 := by
  decide

/-- C1 (amended): word lexemes not present in the seeded registry are
assigned ids strictly above `TOKEN_COUNT`, in first-seen order, with the
very first new identifier receiving id `TOKEN_COUNT + 2` and each
subsequent new identifier the next sequential id.  An event registers a new
identifier exactly when its text is neither seeded nor seen earlier in the
run. -/
theorem claim_C1_amended (reserved : List (List Nat × Nat)) (ws : List (List Nat))
    (hres : ∀ p ∈ reserved, p.2 ≠ NOT_A_TOKEN) :
    (((runWords (mkRawTokenizer reserved) ws).2.filter (fun ev => ev.isNew)).map
        (fun ev => ev.id)
      = List.range' (TOKEN_COUNT + 2)
          (((runWords (mkRawTokenizer reserved) ws).2.filter (fun ev => ev.isNew)).length)) ∧
    (∀ ev ∈ (runWords (mkRawTokenizer reserved) ws).2, ev.isNew = true →
        TOKEN_COUNT < ev.id) ∧
    (∀ k ev, (runWords (mkRawTokenizer reserved) ws).2.get? k = some ev →
      (ev.isNew = true ↔ (lookupWord (mkRawTokenizer reserved).mKnownWords ev.text = none ∧
         ev.text ∉ ((runWords (mkRawTokenizer reserved) ws).2.take k).map (fun e => e.text)))) := by
  have hwf := regWF_mkRawTokenizer reserved hres
  refine ⟨?_, ?_, ?_⟩
  · have h := run_new_ids ws (mkRawTokenizer reserved) hwf
    have h2 : (mkRawTokenizer reserved).mNextIdentifierId + 1 = TOKEN_COUNT + 2 := rfl
    rw [h2] at h
    exact h
  · intro ev hev hnew
    have h := run_new_id_gt ws (mkRawTokenizer reserved) hwf ev hev hnew
    have h2 : (mkRawTokenizer reserved).mNextIdentifierId = TOKEN_COUNT + 1 := rfl
    rw [h2] at h
    omega
  · intro k ev hev
    exact run_isNew_char ws (mkRawTokenizer reserved) k ev hwf hev

/-- Witness for C1 (amended): a run with one seeded word and three word
lexemes, two of them fresh, yields exactly the new ids
`[TOKEN_COUNT + 2, TOKEN_COUNT + 3]`. -/
theorem claim_C1_amended_witness :
    ((runWords (mkRawTokenizer [([98, 111, 120], 7)]) [[97], [99], [97]]).2.filter
        (fun ev => ev.isNew)).map (fun ev => ev.id)
      = List.range' (TOKEN_COUNT + 2)
          (((runWords (mkRawTokenizer [([98, 111, 120], 7)]) [[97], [99], [97]]).2.filter
              (fun ev => ev.isNew)).length) :=
  (claim_C1_amended [([98, 111, 120], 7)] [[97], [99], [97]] (by decide)).1

/-- C9: once a registry entry exists (seeded or dynamically inserted), any
further sequence of word tokenizations leaves it present with the same
`(id, expressionId)` value — entries are write-once and never removed. -/
theorem claim_C9_write_once (reserved : List (List Nat × Nat))
    (ws1 ws2 : List (List Nat)) (k : List Nat) (v : KnownWordInfo)
    (hres : ∀ p ∈ reserved, p.2 ≠ NOT_A_TOKEN)
    (h : lookupWord ((runWords (mkRawTokenizer reserved) ws1).1).mKnownWords k = some v) :
    lookupWord ((runWords ((runWords (mkRawTokenizer reserved) ws1).1) ws2).1).mKnownWords k
      = some v :=
  lookup_runWords_preserved ws2 (regWF_runWords ws1 (regWF_mkRawTokenizer reserved hres)) h

/-- Witness for C9: the entry registered for the word "a" survives two
further tokenizations (one of them of "a" itself) unchanged. -/
theorem claim_C9_witness :
    lookupWord
        ((runWords ((runWords (mkRawTokenizer [([98, 111, 120], 7)]) [[97]]).1)
            [[99], [97]]).1).mKnownWords [97]
      = some ⟨TOKEN_COUNT + 2, IDENTIFIER_TOKEN⟩ :=
  claim_C9_write_once [([98, 111, 120], 7)] [[97]] [[99], [97]] [97]
    ⟨TOKEN_COUNT + 2, IDENTIFIER_TOKEN⟩ (by decide) (by decide)

/-- C5: a word absent from the seeded registry receives, at its first
tokenization, an id strictly above `TOKEN_COUNT`; thereafter — regardless
of intervening tokenizations — reprocessing the byte-identical text yields
the same id and expression id with no state change (idempotent
registration, no new id allocated). -/
theorem claim_C5_idempotent (reserved : List (List Nat × Nat))
    (ws1 ws2 : List (List Nat)) (w : List Nat)
    (hres : ∀ p ∈ reserved, p.2 ≠ NOT_A_TOKEN)
    (h0 : lookupWord (mkRawTokenizer reserved).mKnownWords w = none)
    (hw1 : w ∉ ws1) :
    TOKEN_COUNT < (ProcessWordLexeme ((runWords (mkRawTokenizer reserved) ws1).1) w).id ∧
    (ProcessWordLexeme ((runWords (mkRawTokenizer reserved) ws1).1) w).isNew = true ∧
    ProcessWordLexeme
        ((runWords (ProcessWordLexeme ((runWords (mkRawTokenizer reserved) ws1).1) w).st
            ws2).1) w
      = { st := (runWords
            (ProcessWordLexeme ((runWords (mkRawTokenizer reserved) ws1).1) w).st ws2).1,
          id := (ProcessWordLexeme ((runWords (mkRawTokenizer reserved) ws1).1) w).id,
          expressionId :=
            (ProcessWordLexeme ((runWords (mkRawTokenizer reserved) ws1).1) w).expressionId,
          isNew := false } := by
  have hwf0 := regWF_mkRawTokenizer reserved hres
  have hwf1 := regWF_runWords ws1 hwf0
  have h1 : lookupWord ((runWords (mkRawTokenizer reserved) ws1).1).mKnownWords w = none :=
    lookup_runWords_none ws1 hwf0 h0 hw1
  have hproc := processWord_new ((runWords (mkRawTokenizer reserved) ws1).1) w h1
  refine ⟨?_, ?_, ?_⟩
  · rw [hproc]
    show TOKEN_COUNT < ((runWords (mkRawTokenizer reserved) ws1).1).mNextIdentifierId + 1
    have := hwf1.2
    omega
  · rw [hproc]
  · have hwf2 : RegWF (ProcessWordLexeme ((runWords (mkRawTokenizer reserved) ws1).1) w).st :=
      regWF_processWord w hwf1
    have hlook : lookupWord
        (ProcessWordLexeme ((runWords (mkRawTokenizer reserved) ws1).1) w).st.mKnownWords w
        = some ⟨(ProcessWordLexeme ((runWords (mkRawTokenizer reserved) ws1).1) w).id,
                (ProcessWordLexeme ((runWords (mkRawTokenizer reserved) ws1).1) w).expressionId⟩ := by
      rw [hproc]
      exact lookupWord_insertWord_self _ _ _
    have hpres := lookup_runWords_preserved ws2 hwf2 hlook
    have hid_ne :
        (ProcessWordLexeme ((runWords (mkRawTokenizer reserved) ws1).1) w).id ≠ NOT_A_TOKEN := by
      rw [hproc]
      show ((runWords (mkRawTokenizer reserved) ws1).1).mNextIdentifierId + 1 ≠ NOT_A_TOKEN
      have := hwf1.2
      have := not_a_token_lt
      omega
    exact processWord_old _ w _ hpres hid_ne

/-- Witness for C5: the fresh word "a" gets an id above `TOKEN_COUNT`, and
reprocessing it after an intervening tokenization changes nothing. -/
theorem claim_C5_witness :
    TOKEN_COUNT <
      (ProcessWordLexeme ((runWords (mkRawTokenizer [([98, 111, 120], 7)]) [[99]]).1) [97]).id ∧
    (ProcessWordLexeme ((runWords (mkRawTokenizer [([98, 111, 120], 7)]) [[99]]).1)
        [97]).isNew = true ∧
    ProcessWordLexeme
        ((runWords (ProcessWordLexeme
            ((runWords (mkRawTokenizer [([98, 111, 120], 7)]) [[99]]).1) [97]).st
          [[100]]).1) [97]
      = { st := (runWords (ProcessWordLexeme
              ((runWords (mkRawTokenizer [([98, 111, 120], 7)]) [[99]]).1) [97]).st
            [[100]]).1,
          id := (ProcessWordLexeme
              ((runWords (mkRawTokenizer [([98, 111, 120], 7)]) [[99]]).1) [97]).id,
          expressionId := (ProcessWordLexeme
              ((runWords (mkRawTokenizer [([98, 111, 120], 7)]) [[99]]).1) [97]).expressionId,
          isNew := false } :=
  claim_C5_idempotent [([98, 111, 120], 7)] [[99]] [[100]] [97]
    (by decide) (by decide) (by decide)

/-- C6 counterexample: the claim says the expression-class id of every
token equals the static banding of its token id, with every id above the
colour-key threshold mapping to itself.  The first dynamically registered
identifier refutes it: `ProcessWordLexeme` hard-codes its expression id to
`IDENTIFIER_TOKEN` although its id lies above `COLOUR_KEY_TOKEN`, where the
banding maps the id to itself. -/
theorem claim_C6_counterexample :
    (ProcessWordLexeme (mkRawTokenizer []) [97]).expressionId = IDENTIFIER_TOKEN ∧
    COLOUR_KEY_TOKEN < (ProcessWordLexeme (mkRawTokenizer []) [97]).id ∧
    GetExpressionId (ProcessWordLexeme (mkRawTokenizer []) [97]).id
      = (ProcessWordLexeme (mkRawTokenizer []) [97]).id ∧
    (ProcessWordLexeme (mkRawTokenizer []) [97]).expressionId
      ≠ GetExpressionId (ProcessWordLexeme (mkRawTokenizer []) [97]).id := by
  decide

/-- C6 (amended): `GetExpressionId` is the single monotone static banding —
ids at or below `FLOAT_FUNCT_TOKEN` collapse to `FLOAT_FUNCT_TOKEN`, above
that up to `VECTOR_FUNCT_TOKEN` to `VECTOR_FUNCT_TOKEN`, above that up to
`COLOUR_KEY_TOKEN` to `COLOUR_KEY_TOKEN`, and every higher id maps to
itself — and the expression-class id of every symbol token and of every
seeded reserved-word entry is computed from its token id by this banding;
dynamically registered identifier tokens are the exception: their
expression id is hard-coded to `IDENTIFIER_TOKEN`, differing from the
banding of their id, which would map it to itself. -/
theorem claim_C6_amended :
    (∀ id, id ≤ FLOAT_FUNCT_TOKEN → GetExpressionId id = FLOAT_FUNCT_TOKEN) ∧
    (∀ id, FLOAT_FUNCT_TOKEN < id → id ≤ VECTOR_FUNCT_TOKEN →
        GetExpressionId id = VECTOR_FUNCT_TOKEN) ∧
    (∀ id, VECTOR_FUNCT_TOKEN < id → id ≤ COLOUR_KEY_TOKEN →
        GetExpressionId id = COLOUR_KEY_TOKEN) ∧
    (∀ id, COLOUR_KEY_TOKEN < id → GetExpressionId id = id) ∧
    (∀ a b, a ≤ b → GetExpressionId a ≤ GetExpressionId b) ∧
    (∀ text tid eid, ProcessOtherLexeme text = some (tid, eid) →
        eid = GetExpressionId tid) ∧
    (∀ reserved (k : List Nat) v,
        lookupWord (mkRawTokenizer reserved).mKnownWords k = some v →
        v.expressionId = GetExpressionId v.id) ∧
    (∀ st w, RegWF st → lookupWord st.mKnownWords w = none →
        (ProcessWordLexeme st w).expressionId = IDENTIFIER_TOKEN ∧
        GetExpressionId (ProcessWordLexeme st w).id = (ProcessWordLexeme st w).id ∧
        (ProcessWordLexeme st w).expressionId
          ≠ GetExpressionId (ProcessWordLexeme st w).id) := by
  refine ⟨?_, ?_, ?_, ?_, ?_, ?_, ?_, ?_⟩
  · intro id h
    simp only [GetExpressionId, FLOAT_FUNCT_TOKEN, VECTOR_FUNCT_TOKEN,
      COLOUR_KEY_TOKEN] at h ⊢
    split_ifs <;> omega
  · intro id h1 h2
    simp only [GetExpressionId, FLOAT_FUNCT_TOKEN, VECTOR_FUNCT_TOKEN,
      COLOUR_KEY_TOKEN] at h1 h2 ⊢
    split_ifs <;> omega
  · intro id h1 h2
    simp only [GetExpressionId, FLOAT_FUNCT_TOKEN, VECTOR_FUNCT_TOKEN,
      COLOUR_KEY_TOKEN] at h1 h2 ⊢
    split_ifs <;> omega
  · intro id h
    simp only [GetExpressionId, FLOAT_FUNCT_TOKEN, VECTOR_FUNCT_TOKEN,
      COLOUR_KEY_TOKEN] at h ⊢
    split_ifs <;> omega
  · intro a b h
    simp only [GetExpressionId, FLOAT_FUNCT_TOKEN, VECTOR_FUNCT_TOKEN,
      COLOUR_KEY_TOKEN]
    split_ifs <;> omega
  · intro text tid eid h
    rcases text with _ | ⟨a, _ | ⟨b, t⟩⟩
    · simp [ProcessOtherLexeme] at h
    · cases hs : singleCharTokenId a with
      | none => simp [ProcessOtherLexeme, hs] at h
      | some t2 =>
        simp only [ProcessOtherLexeme, hs, Option.some.injEq, Prod.mk.injEq] at h
        rw [← h.1, ← h.2]
    · simp only [ProcessOtherLexeme] at h
      split_ifs at h with h1 h2 h3
      · simp only [Option.some.injEq, Prod.mk.injEq] at h
        rw [← h.1, ← h.2]
      · simp only [Option.some.injEq, Prod.mk.injEq] at h
        rw [← h.1, ← h.2]
      · simp only [Option.some.injEq, Prod.mk.injEq] at h
        rw [← h.1, ← h.2]
  · intro reserved k v hkv
    exact seed_entries_banded reserved [] (by simp [lookupWord]) k v hkv
  · intro st w hwf hnone
    have hcnt := hwf.2
    simp only [TOKEN_COUNT] at hcnt
    rw [processWord_new st w hnone]
    have hband : GetExpressionId (st.mNextIdentifierId + 1) = st.mNextIdentifierId + 1 := by
      simp only [GetExpressionId, FLOAT_FUNCT_TOKEN, VECTOR_FUNCT_TOKEN,
        COLOUR_KEY_TOKEN]
      split_ifs <;> omega
    refine ⟨rfl, hband, ?_⟩
    show IDENTIFIER_TOKEN ≠ GetExpressionId (st.mNextIdentifierId + 1)
    rw [hband]
    simp only [IDENTIFIER_TOKEN]
    omega

/-- Witness for C6 (amended): the first new identifier of a fresh tokenizer
gets expression id `IDENTIFIER_TOKEN`, while the banding maps its id to
itself, so the two differ. -/
theorem claim_C6_amended_witness :
    (ProcessWordLexeme (mkRawTokenizer []) [97]).expressionId = IDENTIFIER_TOKEN ∧
    GetExpressionId (ProcessWordLexeme (mkRawTokenizer []) [97]).id
      = (ProcessWordLexeme (mkRawTokenizer []) [97]).id ∧
    (ProcessWordLexeme (mkRawTokenizer []) [97]).expressionId
      ≠ GetExpressionId (ProcessWordLexeme (mkRawTokenizer []) [97]).id :=
  claim_C6_amended.2.2.2.2.2.2.2 (mkRawTokenizer []) [97]
    (regWF_mkRawTokenizer [] (by simp)) (by decide)

/-- C7: the symbol classifier recognizes exactly the three two-character
texts "!=", "<=", ">=", mapped to three distinct ids; the id of "<="
differs from those of "<" and "=" tokenized separately; any other text of
length at least two is a contract violation (no token). -/
theorem claim_C7_two_char_ops :
    ProcessOtherLexeme [33, 61] = some (REL_NE_TOKEN, REL_NE_TOKEN) ∧
    ProcessOtherLexeme [60, 61] = some (REL_LE_TOKEN, REL_LE_TOKEN) ∧
    ProcessOtherLexeme [62, 61] = some (REL_GE_TOKEN, REL_GE_TOKEN) ∧
    ProcessOtherLexeme [60] = some (LEFT_ANGLE_TOKEN, LEFT_ANGLE_TOKEN) ∧
    ProcessOtherLexeme [61] = some (EQUALS_TOKEN, EQUALS_TOKEN) ∧
    REL_NE_TOKEN ≠ REL_LE_TOKEN ∧ REL_NE_TOKEN ≠ REL_GE_TOKEN ∧
    REL_LE_TOKEN ≠ REL_GE_TOKEN ∧ REL_LE_TOKEN ≠ LEFT_ANGLE_TOKEN ∧
    REL_LE_TOKEN ≠ EQUALS_TOKEN ∧
    (∀ text : List Nat, 2 ≤ text.length →
       text ≠ [33, 61] → text ≠ [60, 61] → text ≠ [62, 61] →
       ProcessOtherLexeme text = none) := by
  refine ⟨by decide, by decide, by decide, by decide, by decide, by decide, by decide,
    by decide, by decide, by decide, ?_⟩
  intro text hlen h1 h2 h3
  match text with
  | [] => simp at hlen
  | [a] => simp at hlen
  | a :: b :: t2 =>
    simp only [ProcessOtherLexeme]
    rw [if_neg h1, if_neg h2, if_neg h3]

/-- Witness for C7: the two-character text "++" is rejected. -/
theorem claim_C7_witness : ProcessOtherLexeme [43, 43] = none :=
  claim_C7_two_char_ops.2.2.2.2.2.2.2.2.2.2 [43, 43] (by decide) (by decide)
    (by decide) (by decide)

/-- C10: `GetTokenId` returns the id itself for ids at most `TOKEN_COUNT`
and the single generic `IDENTIFIER_TOKEN` for every id strictly above it,
so all dynamically allocated identifiers are indistinguishable through it. -/
theorem claim_C10_token_id :
    (∀ id, id ≤ TOKEN_COUNT → GetTokenId id = id) ∧
    (∀ id, TOKEN_COUNT < id → GetTokenId id = IDENTIFIER_TOKEN) ∧
    (∀ a b, TOKEN_COUNT < a → TOKEN_COUNT < b → GetTokenId a = GetTokenId b) := by
  refine ⟨?_, ?_, ?_⟩
  · intro id h
    simp [GetTokenId, h]
  · intro id h
    simp [GetTokenId, Nat.not_le.mpr h]
  · intro a b ha hb
    simp [GetTokenId, Nat.not_le.mpr ha, Nat.not_le.mpr hb]

/-- Witness for C10: the dynamically allocated id 500 collapses to
`IDENTIFIER_TOKEN`. -/
theorem claim_C10_witness : GetTokenId 500 = IDENTIFIER_TOKEN :=
  claim_C10_token_id.2.1 500 (by decide)

/-- C3: for a `u` escape (4 digits) or `U` escape (6 digits), digit decoding
succeeds iff at least that many characters remain before the closing quote,
all of them are hex digits, and the accumulated value is a valid Unicode
scalar value; on success it produces exactly the hex value and consumes
exactly the specified digit count. -/
theorem claim_C3_ucs_digits (avail : List Nat) (digits : Nat)
    (_hd : digits = 4 ∨ digits = 6) :
    ((∃ c n, ProcessUCSEscapeDigits avail digits = .ok c n) ↔
      (digits ≤ avail.length ∧ (avail.take digits).all isHexDigitB = true ∧
       IsUCS4ScalarValue (hexValue (avail.take digits)) = true)) ∧
    (∀ c n, ProcessUCSEscapeDigits avail digits = .ok c n →
      c = hexValue (avail.take digits) ∧ n = digits) := by
  by_cases hlen : avail.length < digits
  · constructor
    · constructor
      · rintro ⟨c, n, h⟩
        rw [PUED_len hlen] at h
        exact UCSDigitsResult.noConfusion h
      · rintro ⟨h1, _, _⟩
        omega
    · intro c n h
      rw [PUED_len hlen] at h
      exact UCSDigitsResult.noConfusion h
  · have htake : (avail.take digits).length = digits := by
      rw [List.length_take]
      omega
    by_cases hhex : (avail.take digits).all isHexDigitB = true
    · have hres : ProcessUCSEscapeDigits avail digits
          = (if IsUCS4ScalarValue (hexValue (avail.take digits))
             then UCSDigitsResult.ok (hexValue (avail.take digits)) digits
             else UCSDigitsResult.failDigits digits) := by
        rw [PUED_step hlen, ucsDigitLoop_all_hex _ _ hhex, htake]
        rfl
      by_cases hscal : IsUCS4ScalarValue (hexValue (avail.take digits)) = true
      · rw [hres, if_pos hscal]
        constructor
        · exact ⟨fun _ => ⟨by omega, hhex, hscal⟩,
            fun _ => ⟨hexValue (avail.take digits), digits, rfl⟩⟩
        · intro c n h
          simp only [UCSDigitsResult.ok.injEq] at h
          exact ⟨h.1.symm, h.2.symm⟩
      · rw [hres, if_neg hscal]
        constructor
        · constructor
          · rintro ⟨c, n, h⟩
            exact UCSDigitsResult.noConfusion h
          · rintro ⟨_, _, h3⟩
            exact absurd h3 hscal
        · intro c n h
          exact UCSDigitsResult.noConfusion h
    · rcases hp : ucsDigitLoop 0 (avail.take digits) with ⟨r1, r2⟩
      have hfail := ucsDigitLoop_fail (avail.take digits) 0 (by simpa using hhex)
      rw [hp] at hfail
      simp only at hfail
      subst hfail
      have hres : ProcessUCSEscapeDigits avail digits = .failDigits r2 := by
        rw [PUED_step hlen, hp]
      rw [hres]
      constructor
      · constructor
        · rintro ⟨c, n, h⟩
          exact UCSDigitsResult.noConfusion h
        · rintro ⟨_, h2, _⟩
          exact absurd h2 hhex
      · intro c n h
        exact UCSDigitsResult.noConfusion h

/-- Witness for C3: the 4-digit escape text "0041" decodes to hex value
0x41. -/
theorem claim_C3_witness :
    (65 : Nat) = hexValue (([48, 48, 52, 49] : List Nat).take 4) ∧ (4 : Nat) = 4 :=
  (claim_C3_ucs_digits [48, 48, 52, 49] 4 (Or.inl rfl)).2 65 4 (by decide)

/-- C4: whenever decoding a string literal hits an invalid escape sequence
(the decode loop reports an error), tokenizing the literal aborts with the
exception payload — carrying the source position and an offending sub-span
that begins with the backslash byte and is bounded by the literal's end —
and no token is produced (`GetNextToken` propagates the exception instead
of returning a token). -/
theorem claim_C4_escape_failure_aborts (st : RawTokenizer) (sscanfOk : List Nat → Bool)
    (pos : Nat) (text : List Nat) (err : EscapeError)
    (h : ProcessStringLiteralLexeme pos text = .error err) :
    err.pos = pos ∧
    ((text.drop 1).dropLast).get? err.spanBegin = some 92 ∧
    err.span.get? 0 = some 92 ∧
    err.spanBegin + err.span.length ≤ ((text.drop 1).dropLast).length ∧
    0 < err.span.length ∧
    ClassifyLexeme st sscanfOk ⟨.kStringLiteral, text, pos⟩ = (st, .exn err) := by
  have hclass : ClassifyLexeme st sscanfOk ⟨.kStringLiteral, text, pos⟩ = (st, .exn err) := by
    simp [ClassifyLexeme, stringStage, h]
  unfold ProcessStringLiteralLexeme at h
  dsimp only at h
  rcases hdec : decodeStringChars ((text.drop 1).dropLast) 0 with p | data
  · obtain ⟨s, e⟩ := p
    rw [hdec] at h
    simp only [Except.error.injEq] at h
    obtain ⟨h1, h2, h3, h4⟩ := decode_error_spec ((text.drop 1).dropLast) 0 s e hdec
    simp only [Nat.sub_zero, Nat.zero_add] at h3 h4
    have hslt : s < ((text.drop 1).dropLast).length := by
      rcases List.get?_eq_some.mp h4 with ⟨hs, _⟩
      exact hs
    have herr : err = ⟨pos, s, (((text.drop 1).dropLast).drop s).take (e - s)⟩ := h.symm
    subst herr
    have hspanlen :
        ((((text.drop 1).dropLast).drop s).take (e - s)).length = e - s := by
      rw [List.length_take, List.length_drop]
      omega
    refine ⟨rfl, h4, ?_, ?_, ?_, hclass⟩
    · rw [List.get?_take (by omega), List.get?_drop]
      simpa using h4
    · simp only [hspanlen]
      omega
    · simp only [hspanlen]
      omega
  · rw [hdec] at h
    exact Except.noConfusion h

/-- Witness for C4: the literal `"\q"` (an unknown escape) aborts with span
`\q` starting at the backslash, carrying source position 5, and produces no
token. -/
theorem claim_C4_witness :
    (⟨5, 0, [92, 113]⟩ : EscapeError).pos = 5 ∧
    ((([34, 92, 113, 34] : List Nat).drop 1).dropLast).get?
        (⟨5, 0, [92, 113]⟩ : EscapeError).spanBegin = some 92 ∧
    (⟨5, 0, [92, 113]⟩ : EscapeError).span.get? 0 = some 92 ∧
    (⟨5, 0, [92, 113]⟩ : EscapeError).spanBegin +
        (⟨5, 0, [92, 113]⟩ : EscapeError).span.length ≤
      ((([34, 92, 113, 34] : List Nat).drop 1).dropLast).length ∧
    0 < (⟨5, 0, [92, 113]⟩ : EscapeError).span.length ∧
    ClassifyLexeme (mkRawTokenizer []) (fun _ => false)
        ⟨.kStringLiteral, [34, 92, 113, 34], 5⟩
      = (mkRawTokenizer [], .exn ⟨5, 0, [92, 113]⟩) :=
  claim_C4_escape_failure_aborts (mkRawTokenizer []) (fun _ => false) 5
    [34, 92, 113, 34] ⟨5, 0, [92, 113]⟩
    (by simp [ProcessStringLiteralLexeme, decodeStringChars])

/-- C8: a non-backslash, non-ASCII byte whose multi-byte UTF-8 decode fails
contributes the replacement character U+FFFD and decoding continues with
the rest of the literal; such a byte never makes the literal's tokenization
fail (an error can only come from the remaining input). -/
theorem claim_C8_utf8_replacement (b : Nat) (rest : List Nat) (k : Nat)
    (hb : 0x7F < b) (hdec : DecodeUTF8Sequence (b :: rest) = none) :
    decodeStringChars (b :: rest) k
      = pushChar kReplacementCharacter (decodeStringChars rest (k + 1)) := by
  have hb92 : ¬(b = 92) := by omega
  have hble : ¬(b ≤ 127) := by omega
  rw [decodeStringChars.eq_def]
  simp [hb92, hble, hdec]

/-- Witness for C8: the truncated two-byte lead 0xC3 at the end of a literal
decodes to the replacement character rather than failing. -/
theorem claim_C8_witness :
    decodeStringChars [195] 0 = pushChar kReplacementCharacter (decodeStringChars [] 1) :=
  claim_C8_utf8_replacement 195 [] 0 (by decide) (by decide)

/-- C2 (code-bug evidence): on a float-literal lexeme whose numeric parse
consumes nothing, `GetNextToken` does not report a failure; the missing
`break` lets control fall through into the string-literal branch, which
violates its own category assertion (`assertsOk = false`) and returns
success with a token wrongly classified as a string literal. -/
theorem claim_C2_float_fallthrough :
    ClassifyLexeme (mkRawTokenizer []) (fun _ => false) ⟨.kFloatLiteral, [46, 46], 0⟩
      = (mkRawTokenizer [],
         .success STRING_LITERAL_TOKEN STRING_LITERAL_TOKEN (some []) false) := by
  simp [ClassifyLexeme, floatStage, stringStage, ProcessStringLiteralLexeme,
    decodeStringChars, stringStageAssertsOk]

end RawTok
